import Mathlib

/-!
# Verification of the `blend` repository

A shallow embedding of the numeric, validation and control-flow logic of
`blend.py` and `api/server.py`, together with theorems settling the frozen
claims about it.

Modelling conventions:
* 8-bit channel intensities are `ℕ` (values in `[0, 255]`).
* The C float arithmetic inside Pillow's `Image.blend` and NumPy's
  `mean`/`astype` is modelled with exact rationals (`ℚ`); the final cast
  to `uint8` truncates toward zero (a floor, since values are nonnegative),
  exactly as `(UINT8)temp` in Pillow's `Blend.c` and `.astype(np.uint8)` do.
* Python strings are Lean `String`s; `None`-able values are `Option`s;
  raised exceptions are `Except` errors.
-/

/-- Errors raised by the Python code (exceptions of the model). -/
inductive PyErr where
  | typeError (msg : String)
  | valueError (msg : String)
  | fileNotFoundError (msg : String)
  | runtimeError (msg : String)
  | moduleNotFoundError (msg : String)
  | importError (msg : String)
  | decodeError (msg : String)
  | otherError (msg : String)
deriving DecidableEq

/-- The message carried by an exception. -/
def PyErr.msg : PyErr → String
  | .typeError m => m
  | .valueError m => m
  | .fileNotFoundError m => m
  | .runtimeError m => m
  | .moduleNotFoundError m => m
  | .importError m => m
  | .decodeError m => m
  | .otherError m => m

/-!
## Channel-level arithmetic

`pilBlendChan` embeds one channel of Pillow's `Image.blend(im1, im2, alpha)`
with `alpha = 1/i`: `temp = in1 + alpha*(in2 - in1)`, clamped to `[0, 255]`
and truncated toward zero by the C cast `(UINT8)temp`.
-/

/-- One channel of `Image.blend(a, b, 1/i)` from Pillow's `Blend.c`:
`temp = a + (1/i)*(b - a)`; `temp <= 0 ↦ 0`, `temp >= 255 ↦ 255`,
otherwise the float is truncated toward zero (a floor, as `temp > 0`). -/
def pilBlendChan (a b i : ℕ) : ℕ :=
  if (a : ℚ) + 1 / (i : ℚ) * ((b : ℚ) - (a : ℚ)) ≤ 0 then 0
  else if 255 ≤ (a : ℚ) + 1 / (i : ℚ) * ((b : ℚ) - (a : ℚ)) then 255
  else (⌊(a : ℚ) + 1 / (i : ℚ) * ((b : ℚ) - (a : ℚ))⌋).toNat

/-- The fold of `_blend_internal_average` on one channel:
`for i, im in enumerate(images[1:], start=2): out = Image.blend(out, im, 1.0/i)`. -/
def incChanGo (out : ℕ) (i : ℕ) : List ℕ → ℕ
  | [] => out
  | b :: bs => incChanGo (pilBlendChan out b i) (i + 1) bs

/-- One channel of the incremental weighted blend of `_blend_internal_average`,
starting from the first image's value `x` and folding in the rest with
weights `1/2, 1/3, …`. -/
def incChan (x : ℕ) (xs : List ℕ) : ℕ := incChanGo x 2 xs

/-- One channel of `blend.py`'s `np.mean(np_images, axis=0).astype(np.uint8)`:
the exact mean, truncated toward zero (values are nonnegative, so a floor). -/
def truncMeanChan (xs : List ℕ) : ℕ :=
  (⌊((xs.sum : ℕ) : ℚ) / (xs.length : ℚ)⌋).toNat

/-- The same incremental fold under exact arithmetic (no 8-bit rounding):
`out := out + (1/i) * (b - out)`, indices starting at 2. -/
def exactIncGo (m : ℚ) (i : ℕ) : List ℚ → ℚ
  | [] => m
  | b :: bs => exactIncGo (m + (1 / (i : ℚ)) * (b - m)) (i + 1) bs

/-- The exact-arithmetic incremental weighted blend of a batch `x :: xs`. -/
def exactInc (x : ℚ) (xs : List ℚ) : ℚ := exactIncGo x 2 xs

/-- Worst-case distance of the truncating fold from the exact running mean
after `k` images: `(k+1)/2 - 1/k`. -/
def Ebound (k : ℕ) : ℚ := ((k : ℚ) + 1) / 2 - 1 / (k : ℚ)

/-! ### Exact arithmetic: the fold computes the mean -/

/-- A decoded RGBA image. -/
structure Img where
  w : ℕ
  h : ℕ
  pix : ℕ → ℕ → Fin 4 → ℕ

/-- An abstract resampling filter: source image, target width and height,
resulting pixel function. -/
def Resampler : Type := Img → ℕ → ℕ → (ℕ → ℕ → Fin 4 → ℕ)

/-- `im.resize((w, h), filter)`: identity when the size already matches,
otherwise an image of the requested size with resampled content. -/
def pilResize (r : Resampler) (im : Img) (w h : ℕ) : Img :=
  if im.w = w ∧ im.h = h then im else ⟨w, h, r im w h⟩

/-- `Image.blend(a, b, 1/i)`: channel-wise `pilBlendChan` (Pillow requires
matching sizes; the output carries the first operand's dimensions). -/
def imageBlend (a b : Img) (i : ℕ) : Img :=
  ⟨a.w, a.h, fun x y c => pilBlendChan (a.pix x y c) (b.pix x y c) i⟩

/-- The `for i, im in enumerate(images[1:], start=2)` loop of
`_blend_internal_average`. -/
def blendFold (out : Img) (i : ℕ) : List Img → Img
  | [] => out
  | b :: bs => blendFold (imageBlend out b i) (i + 1) bs

/-- `_blend_internal_average` of `api/server.py` over decoded images:
empty batch raises `ValueError("No images to blend.")` (modelled as
`none`); otherwise every image is resized to the first image's size
(Lanczos in the source; the filter is the `r` parameter here) and the
batch is folded with `Image.blend(out, im, 1.0/i)`. -/
def blend_internal_average (r : Resampler) : List Img → Option Img
  | [] => none
  | i0 :: rest =>
    some (blendFold (pilResize r i0 i0.w i0.h) 2
      (rest.map (fun im => pilResize r im i0.w i0.h)))

/-- The averaging core of `blend.py`'s `average_images` (lines 24-36): all
images are resized to the first image's size (default filter in the source;
the filter is the `r` parameter here), stacked as float arrays and averaged
with `np.mean(..., axis=0).astype(np.uint8)`, i.e. channel-wise
`truncMeanChan`. An empty list prints "No images found." and returns
(modelled as `none`). -/
def average_images_core (r : Resampler) : List Img → Option Img
  | [] => none
  | i0 :: rest =>
    some ⟨i0.w, i0.h, fun x y c =>
      truncMeanChan (((i0 :: rest).map (fun im => pilResize r im i0.w i0.h)).map
        (fun im => im.pix x y c))⟩

/-- A pure natural-number mirror of `incChanGo`, for concrete evaluation. -/
def incChanGoN (out i : ℕ) : List ℕ → ℕ
  | [] => out
  | b :: bs =>
    incChanGoN
      (if out * (i - 1) + b = 0 then 0
       else if 255 * i ≤ out * (i - 1) + b then 255
       else (out * (i - 1) + b) / i) (i + 1) bs

/-- Modelled from the spec: "Compute the arithmetic mean of all images,
channel-wise, per pixel, as floating-point, then round to the nearest
integer intensity (8-bit, 0-255) per channel" — one channel of the
accumulate-and-divide strategy with round-to-nearest conversion, stated for
comparison with the source's `truncMeanChan`. -/
def specRoundMeanChan (xs : List ℕ) : ℕ :=
  (round (((xs.sum : ℕ) : ℚ) / (xs.length : ℚ))).toNat

/-- `str.lower()`. -/
def pyLower (s : String) : String := ⟨s.data.map Char.toLower⟩

/-- `ACCEPTED_EXTS = {".png", ".jpg", ".jpeg", ".webp"}`. -/
def ACCEPTED_EXTS : List String := [".png", ".jpg", ".jpeg", ".webp"]

/-- `ACCEPTED_MEDIA_TYPES = {"image/png", "image/jpeg", "image/webp"}`. -/
def ACCEPTED_MEDIA_TYPES : List String := ["image/png", "image/jpeg", "image/webp"]

/-- `MIN_FILES = 2`. -/
def MIN_FILES : ℕ := 2

/-- `MAX_FILES = 15`. -/
def MAX_FILES : ℕ := 15

/-- `MAX_FILE_BYTES = MAX_FILE_MB * 1024 * 1024` with `MAX_FILE_MB = 4`. -/
def MAX_FILE_BYTES : ℕ := 4 * 1024 * 1024

/-- Index of the last occurrence of `ch` in `l` (`str.rfind`), `-1` when
absent. -/
def rfindChar (ch : Char) (l : List Char) : Int :=
  l.enum.foldl (fun acc ic => if ic.2 = ch then (ic.1 : Int) else acc) (-1)

/-- Split a character list at every occurrence of `sep` (the behaviour of
Python's `str.split(sep)` for a one-character separator). -/
def splitChar (sep : Char) : List Char → List (List Char)
  | [] => [[]]
  | c :: cs =>
    match splitChar sep cs, decide (c = sep) with
    | r, true => [] :: r
    | [], false => [[c]]
    | h :: t, false => (c :: h) :: t

/-- `os.path.basename` (POSIX): everything after the last `'/'`. -/
def pyBasename (s : String) : String := ⟨(splitChar '/' s.data).getLastD []⟩

/-- `os.path.splitext` (POSIX), following CPython's `genericpath._splitext`:
split at the last dot that comes after the last separator, unless all the
characters between the separator and that dot are dots (leading dots of the
final component do not start an extension). -/
def pySplitext (s : String) : String × String :=
  let l := s.data
  let sepIndex := rfindChar '/' l
  let dotIndex := rfindChar '.' l
  if sepIndex < dotIndex then
    if ((l.take dotIndex.toNat).drop (sepIndex + 1).toNat).any (fun c => c ≠ '.') then
      (⟨l.take dotIndex.toNat⟩, ⟨l.drop dotIndex.toNat⟩)
    else (s, "")
  else (s, "")

/-- `pathlib.PurePath(...).name` (POSIX): the last path component, with
empty and `"."` components dropped. -/
def purePathName (s : String) : String :=
  ⟨((splitChar '/' s.data).filter (fun p => p ≠ [] ∧ p ≠ ['.'])).getLastD []⟩

/-- `pathlib.PurePath(...).suffix`: the extension of the final component —
`name[i:]` for `i = name.rfind('.')` when `0 < i < len(name) - 1`, else
the empty string. -/
def pySuffix (s : String) : String :=
  let name := (purePathName s).data
  let i := rfindChar '.' name
  if 0 < i ∧ i < (name.length : Int) - 1 then ⟨name.drop i.toNat⟩ else ""

/-- The character filter of `_sanitize_filename` with the `[:40]`
truncation: keep alphanumerics, `'-'` and `'_'`, replace everything else
with `'_'`, then keep at most 40 characters. -/
def sanitizeStem (stem : List Char) : List Char :=
  (stem.map (fun ch => if ch.isAlphanum ∨ ch = '-' ∨ ch = '_' then ch else '_')).take 40

/-- `_sanitize_filename` of `api/server.py`. The 8-hex-digit result of
`secrets.token_hex(4)` is the `token` parameter (OS randomness). -/
def sanitize_filename (name : String) (token : String) : String :=
  let se := pySplitext (pyBasename name)
  let ext := if ACCEPTED_EXTS.contains (pyLower se.2) then pyLower se.2 else ".png"
  let safe_stem : String := ⟨sanitizeStem se.1.data⟩
  (if safe_stem = "" then "img" else safe_stem) ++ "_" ++ token ++ ext

/-- The detail message of the 413 error:
`f"File '{upload.filename}' exceeds {MAX_FILE_MB} MB limit."`. -/
def payloadTooLargeDetail (filename : String) : String :=
  "File '" ++ filename ++ "' exceeds 4 MB limit."

/-- The `while True` loop of `_save_and_read`: `total` is the running byte
count, `written` the file content so far. -/
def saveAndReadGo (filename : String) (total : ℕ) (written : List ℕ) :
    List (List ℕ) → Except ((ℕ × String) × List ℕ) (List ℕ × List ℕ)
  | [] => .ok (written, written)
  | c :: cs =>
    if c = [] then .ok (written, written)
    else if MAX_FILE_BYTES < total + c.length then
      .error ((413, payloadTooLargeDetail filename), written)
    else saveAndReadGo filename (total + c.length) (written ++ c) cs

/-- `_save_and_read` of `api/server.py` on an upload with declared filename
`filename` whose stream yields `chunks`. -/
def save_and_read (filename : String) (chunks : List (List ℕ)) :
    Except ((ℕ × String) × List ℕ) (List ℕ × List ℕ) :=
  saveAndReadGo filename 0 [] chunks

/-- The bytes left on disk by `_save_and_read`, whether it succeeded or
raised. -/
def writtenBytes : Except ((ℕ × String) × List ℕ) (List ℕ × List ℕ) → List ℕ
  | .error (_, w) => w
  | .ok (w, _) => w

/-- A value of unknown shape returned by a plugin entry point. -/
inductive BlendResult where
  | image (im : Img)
  | bytes (bs : List ℕ)
  | byteBuffer (bs : List ℕ)
  | str (s : String)
  | other

/-- `_ensure_pillow_image` of `api/server.py`. -/
def ensure_pillow_image (fileExists : String → Bool)
    (openBytes : List ℕ → Except PyErr Img)
    (openPath : String → Except PyErr Img) : BlendResult → Except PyErr Img
  | .image im => .ok im
  | .bytes bs => openBytes bs
  | .byteBuffer bs => openBytes bs
  | .str s =>
    if fileExists s then openPath s
    else .error (.typeError "Could not interpret blend result as an image.")
  | .other => .error (.typeError "Could not interpret blend result as an image.")

/-- The optional user module `blend` as the resolver sees it: each entry
point is present or absent, and, when called, either returns a
`BlendResult` or raises. -/
structure PluginModule where
  blend_images_from_files : Option (List (List ℕ) → Except PyErr BlendResult)
  blend_images : Option (List String → Except PyErr BlendResult)

/-- The outcome of `importlib.import_module("blend")`: module absent
(`ModuleNotFoundError`, caught), import raising any other error
(uncaught!), or a successfully imported module. -/
inductive ImportOutcome where
  | absent
  | importFail (e : PyErr)
  | ok (m : PluginModule)

/-- The observable behaviour of the `blend.py` CLI subprocess for one
invocation: the `subprocess.run` call itself may raise; otherwise it yields
a return code and stderr text; `out.png` may or may not exist afterwards;
opening it may raise or yield an image. -/
structure CliOutcome where
  run : Except PyErr (Int × String)
  outExists : Bool
  openOut : Except PyErr Img

/-- The command-line stage of the resolver (the final `try: … except
Exception: return None` block): any failure — `subprocess.run` raising,
non-zero exit, missing output file, undecodable output — yields `none`. -/
def cliStage (c : CliOutcome) : Option Img :=
  match c.run with
  | .error _ => none
  | .ok (rc, _) =>
    if rc ≠ 0 then none
    else if ¬c.outExists then none
    else match c.openOut with
      | .error _ => none
      | .ok im => some im

/-- The in-memory stage of the resolver: call `blend_images_from_files`
on the raw byte buffers and normalize the result; any failure (entry point
absent, call raising, normalization raising) yields `none`
(`except Exception: pass`). -/
def resolverStage1 (fileExists : String → Bool)
    (openBytes : List ℕ → Except PyErr Img) (openPath : String → Except PyErr Img)
    (m : PluginModule) (fileBytes : List (List ℕ)) : Option Img :=
  match m.blend_images_from_files with
  | none => none
  | some f =>
    match f fileBytes with
    | .error _ => none
    | .ok v =>
      match ensure_pillow_image fileExists openBytes openPath v with
      | .ok im => some im
      | .error _ => none

/-- The file-path stage of the resolver: call `blend_images` on the stored
paths, normalize the result, and — when normalization raises on a string
result naming an existing file — retry `Image.open` on that path; any
remaining failure yields `none` (`except Exception: pass`). -/
def resolverStage2 (fileExists : String → Bool)
    (openBytes : List ℕ → Except PyErr Img) (openPath : String → Except PyErr Img)
    (m : PluginModule) (filePaths : List String) : Option Img :=
  match m.blend_images with
  | none => none
  | some f =>
    match f filePaths with
    | .error _ => none
    | .ok v =>
      match ensure_pillow_image fileExists openBytes openPath v with
      | .ok im => some im
      | .error _ =>
        match v with
        | .str s =>
          if fileExists s then
            match openPath s with
            | .ok im => some im
            | .error _ => none
          else none
        | _ => none

/-- `_try_blend_via_user_script` of `api/server.py`. An uncaught exception
is an `Except.error`; "no result" is `.ok none`. -/
def try_blend_via_user_script (imp : ImportOutcome) (fileExists : String → Bool)
    (openBytes : List ℕ → Except PyErr Img) (openPath : String → Except PyErr Img)
    (cli : CliOutcome) (fileBytes : List (List ℕ)) (filePaths : List String) :
    Except PyErr (Option Img) :=
  match imp with
  | .importFail e => .error e
  | .absent => .ok (cliStage cli)
  | .ok m =>
    match resolverStage1 fileExists openBytes openPath m fileBytes with
    | some im => .ok (some im)
    | none =>
      match resolverStage2 fileExists openBytes openPath m filePaths with
      | some im => .ok (some im)
      | none => .ok (cliStage cli)

/-- An incoming multipart file part. -/
structure Upload where
  filename : Option String
  contentType : Option String
  stream : List (List ℕ)

/-- The validation-relevant metadata of an upload. -/
def Upload.meta (uf : Upload) : Option String × Option String :=
  (uf.filename, uf.contentType)

/-- The per-file check of the endpoint on metadata:
`content_type = (uf.content_type or "").lower()` not in
`ACCEPTED_MEDIA_TYPES`, and `Path(uf.filename or "").suffix.lower()` not in
`ACCEPTED_EXTS`. -/
def uploadTypeBadM : Option String × Option String → Bool
  | (fn, ct) =>
    (!(ACCEPTED_MEDIA_TYPES.contains (pyLower (ct.getD "")))) &&
      (!(ACCEPTED_EXTS.contains (pyLower (pySuffix (fn.getD "")))))

/-- An upload is rejected when both its declared media type and its
filename extension are unaccepted (`if content_type not in
ACCEPTED_MEDIA_TYPES and not ext_ok`). -/
def uploadTypeBad (uf : Upload) : Bool := uploadTypeBadM uf.meta

/-- The validation prefix of `blend_endpoint`: 422 when the number of files
is outside `[MIN_FILES, MAX_FILES]` (the code's `not files` test is
subsumed by `len(files) < MIN_FILES`), else 415 when some upload fails the
type check, else no error. Only metadata is consulted. -/
def validateBatch (files : List Upload) : Option (ℕ × String) :=
  if files.length < MIN_FILES ∨ MAX_FILES < files.length then
    some (422, "Please upload between 2 and 15 images.")
  else if files.any uploadTypeBad then
    some (415, "Only PNG, JPEG, or WebP images are allowed.")
  else none

/-- `None` interpolates as the string `"None"` in the 413 detail f-string. -/
def optFilenameStr : Option String → String
  | some s => s
  | none => "None"

/-- The persistence loop of the endpoint: write each upload via
`_save_and_read`, collecting the full file contents; the first 413 aborts,
leaving the files written so far (and the aborted partial file) in the
request workspace. -/
def saveAllGo (acc : List (List ℕ)) :
    List Upload → Except ((ℕ × String) × List (List ℕ)) (List (List ℕ))
  | [] => .ok acc
  | uf :: rest =>
    match save_and_read (optFilenameStr uf.filename) uf.stream with
    | .error (e, w) => .error (e, acc ++ [w])
    | .ok (w, _) => saveAllGo (acc ++ [w]) rest

/-- `[Image.open(p).convert("RGBA") for p in paths]`: decode every stored
file, the first failure propagating. -/
def decodeAll (decode : List ℕ → Except PyErr Img) :
    List (List ℕ) → Except PyErr (List Img)
  | [] => .ok []
  | b :: bs =>
    match decode b with
    | .error e => .error e
    | .ok im =>
      match decodeAll decode bs with
      | .error e => .error e
      | .ok ims => .ok (im :: ims)

/-- `_blend_internal_average` as called by the endpoint on stored files:
decode, then blend; the empty case raises
`ValueError("No images to blend.")`. -/
def blendInternalFromBytes (decode : List ℕ → Except PyErr Img) (r : Resampler)
    (bss : List (List ℕ)) : Except PyErr Img :=
  match decodeAll decode bss with
  | .error e => .error e
  | .ok imgs =>
    match blend_internal_average r imgs with
    | none => .error (.valueError "No images to blend.")
    | some im => .ok im

/-- `blend_endpoint` of `api/server.py`: the HTTP outcome (error status +
detail, or the blended image before PNG encoding) together with the list of
file contents persisted in the request workspace while handling the
request. -/
def blend_endpoint (resolver : Except PyErr (Option Img))
    (decode : List ℕ → Except PyErr Img) (r : Resampler) (files : List Upload) :
    Except (ℕ × String) Img × List (List ℕ) :=
  match validateBatch files with
  | some e => (.error e, [])
  | none =>
    match saveAllGo [] files with
    | .error (e, written) => (.error e, written)
    | .ok written =>
      match resolver with
      | .error e => (.error (500, "Blending failed: " ++ e.msg), written)
      | .ok (some im) => (.ok im, written)
      | .ok none =>
        match blendInternalFromBytes decode r written with
        | .error e => (.error (500, "Blending failed: " ++ e.msg), written)
        | .ok im => (.ok im, written)

/-! ## Theorems -/

theorem exactIncGo_eq (xs : List ℚ) :
    ∀ (m : ℚ) (k : ℕ), 1 ≤ k →
      exactIncGo m (k + 1) xs = ((k : ℚ) * m + xs.sum) / ((k : ℚ) + xs.length) := by
  induction xs with
  | nil =>
    intro m k hk
    have hk0 : (k : ℚ) ≠ 0 := by positivity
    simp [exactIncGo, mul_div_assoc, mul_comm]
    field_simp
  | cons b bs ih =>
    intro m k hk
    have hk0 : (k : ℚ) ≠ 0 := by positivity
    have hk10 : (k : ℚ) + 1 ≠ 0 := by positivity
    have step : exactIncGo m (k + 1) (b :: bs)
        = exactIncGo (m + (1 / ((k : ℚ) + 1)) * (b - m)) (k + 1 + 1) bs := by
      simp [exactIncGo]
    rw [step, ih _ (k + 1) (by omega)]
    have hm : ((k : ℚ) + 1) * (m + (1 / ((k : ℚ) + 1)) * (b - m)) = (k : ℚ) * m + b := by
      field_simp
      ring
    push_cast
    rw [show ((k : ℚ) + 1) * (m + (1 / ((k : ℚ) + 1)) * (b - m)) + bs.sum
          = ((k : ℚ) * m + b) + bs.sum by rw [hm]]
    ring_nf
    simp [List.length_cons, List.sum_cons]
    ring_nf

/-- Under exact arithmetic the incremental fold over `x :: xs` is the
arithmetic mean of all the values. -/
theorem exactInc_eq_mean (x : ℚ) (xs : List ℚ) :
    exactInc x xs = (x + xs.sum) / (1 + xs.length) := by
  have h := exactIncGo_eq xs x 1 le_rfl
  simpa [exactInc, Ebound] using h

/-! ### Truncating arithmetic: error bound of the incremental fold -/

theorem pilBlendChan_spec (a b i : ℕ) (ha : a ≤ 255) (hb : b ≤ 255) (hi : 1 ≤ i) :
    pilBlendChan a b i ≤ 255 ∧
      (pilBlendChan a b i : ℚ) ≤ (a : ℚ) + 1 / (i : ℚ) * ((b : ℚ) - a) ∧
      (a : ℚ) + 1 / (i : ℚ) * ((b : ℚ) - a) < (pilBlendChan a b i : ℚ) + 1 := by
  have hiQ : (1 : ℚ) ≤ (i : ℚ) := by exact_mod_cast hi
  have hi0 : (0 : ℚ) < (i : ℚ) := by linarith
  have halpha0 : (0 : ℚ) ≤ 1 / (i : ℚ) := by positivity
  have halpha1 : 1 / (i : ℚ) ≤ 1 := by rw [div_le_one hi0]; exact hiQ
  have haQ : (a : ℚ) ≤ 255 := by exact_mod_cast ha
  have hbQ : (b : ℚ) ≤ 255 := by exact_mod_cast hb
  have ha0 : (0 : ℚ) ≤ (a : ℚ) := by positivity
  have hb0 : (0 : ℚ) ≤ (b : ℚ) := by positivity
  have ht0 : 0 ≤ (a : ℚ) + 1 / (i : ℚ) * ((b : ℚ) - a) := by nlinarith
  have ht255 : (a : ℚ) + 1 / (i : ℚ) * ((b : ℚ) - a) ≤ 255 := by nlinarith
  unfold pilBlendChan
  split_ifs with h1 h2
  · have : (a : ℚ) + 1 / (i : ℚ) * ((b : ℚ) - a) = 0 := le_antisymm h1 ht0
    refine ⟨by norm_num, by rw [this]; norm_num, by rw [this]; norm_num⟩
  · have : (a : ℚ) + 1 / (i : ℚ) * ((b : ℚ) - a) = 255 := le_antisymm ht255 h2
    refine ⟨le_rfl, by rw [this]; norm_num, by rw [this]; norm_num⟩
  · have hfl0 : 0 ≤ ⌊(a : ℚ) + 1 / (i : ℚ) * ((b : ℚ) - a)⌋ := Int.floor_nonneg.mpr ht0
    have hcast : (((⌊(a : ℚ) + 1 / (i : ℚ) * ((b : ℚ) - a)⌋).toNat : ℕ) : ℚ)
        = ((⌊(a : ℚ) + 1 / (i : ℚ) * ((b : ℚ) - a)⌋ : ℤ) : ℚ) := by
      exact_mod_cast congrArg (fun z : ℤ => (z : ℚ)) (Int.toNat_of_nonneg hfl0)
    refine ⟨?_, ?_, ?_⟩
    · have hlt : ((⌊(a : ℚ) + 1 / (i : ℚ) * ((b : ℚ) - a)⌋ : ℤ) : ℚ) < 255 :=
        lt_of_le_of_lt (Int.floor_le _) (lt_of_not_le h2)
      have : (⌊(a : ℚ) + 1 / (i : ℚ) * ((b : ℚ) - a)⌋ : ℤ) < 255 := by exact_mod_cast hlt
      omega
    · rw [hcast]; exact Int.floor_le _
    · rw [hcast]; exact Int.lt_floor_add_one _

theorem Ebound_succ (k : ℕ) (hk : 1 ≤ k) :
    (k : ℚ) / ((k : ℚ) + 1) * Ebound k + 1 = Ebound (k + 1) := by
  have hk0 : (k : ℚ) ≠ 0 := by positivity
  have hk1 : (k : ℚ) + 1 ≠ 0 := by positivity
  unfold Ebound
  push_cast
  field_simp
  ring

theorem incChanGo_err (xs : List ℕ) :
    ∀ (out k : ℕ) (m : ℚ), 1 ≤ k → out ≤ 255 → (∀ v ∈ xs, v ≤ 255) →
      0 ≤ m → m ≤ 255 → |(out : ℚ) - m| ≤ Ebound k →
      incChanGo out (k + 1) xs ≤ 255 ∧
        |(incChanGo out (k + 1) xs : ℚ) -
          ((k : ℚ) * m + ((xs.sum : ℕ) : ℚ)) / ((k : ℚ) + (xs.length : ℚ))| ≤
          Ebound (k + xs.length) := by
  induction xs with
  | nil =>
    intro out k m hk hout _ hm0 hm255 hclose
    have hk0 : (k : ℚ) ≠ 0 := by positivity
    refine ⟨by simpa [incChanGo] using hout, ?_⟩
    have hmk : (k : ℚ) * m / (k : ℚ) = m := by field_simp
    simpa [incChanGo, hmk] using hclose
  | cons b bs ih =>
    intro out k m hk hout hxs hm0 hm255 hclose
    have hb255 : b ≤ 255 := hxs b (by simp)
    have hb0 : (0 : ℚ) ≤ (b : ℚ) := by positivity
    have hbQ : (b : ℚ) ≤ 255 := by exact_mod_cast hb255
    have hkQ : (0 : ℚ) < (k : ℚ) := by exact_mod_cast hk
    have hk10 : (0 : ℚ) < (k : ℚ) + 1 := by linarith
    obtain ⟨hout'255, hle, hlt⟩ := pilBlendChan_spec out b (k + 1) hout hb255 (by omega)
    push_cast at hle hlt
    set out' : ℕ := pilBlendChan out b (k + 1) with hout'def
    set t : ℚ := (out : ℚ) + 1 / ((k : ℚ) + 1) * ((b : ℚ) - out) with htdef
    set m' : ℚ := ((k : ℚ) * m + b) / ((k : ℚ) + 1) with hmpdef
    have hm'0 : 0 ≤ m' := div_nonneg (by nlinarith) (le_of_lt hk10)
    have hm'255 : m' ≤ 255 := by
      rw [hmpdef, div_le_iff₀ hk10]; nlinarith
    have htm' : t - m' = (k : ℚ) / ((k : ℚ) + 1) * ((out : ℚ) - m) := by
      rw [htdef, hmpdef]; field_simp; ring
    have hclose' : |(out' : ℚ) - m'| ≤ Ebound (k + 1) := by
      have habs1 : |(out' : ℚ) - t| ≤ 1 := by
        rw [abs_le]; constructor <;> [linarith; linarith]
      have habs2 : |t - m'| ≤ (k : ℚ) / ((k : ℚ) + 1) * Ebound k := by
        rw [htm', abs_mul, abs_of_nonneg (le_of_lt (div_pos hkQ hk10))]
        exact mul_le_mul_of_nonneg_left hclose (le_of_lt (div_pos hkQ hk10))
      calc |(out' : ℚ) - m'| ≤ |(out' : ℚ) - t| + |t - m'| := abs_sub_le _ _ _
        _ ≤ 1 + (k : ℚ) / ((k : ℚ) + 1) * Ebound k := by linarith
        _ = Ebound (k + 1) := by rw [← Ebound_succ k hk]; ring
    have hrec := ih out' (k + 1) m' (by omega) hout'255
      (fun v hv => hxs v (by simp [hv])) hm'0 hm'255 hclose'
    have hstep : incChanGo out (k + 1) (b :: bs) = incChanGo out' (k + 1 + 1) bs := by
      simp [incChanGo, hout'def]
    have hmean : (((k + 1 : ℕ) : ℚ) * m' + ((bs.sum : ℕ) : ℚ)) / (((k + 1 : ℕ) : ℚ) + (bs.length : ℚ))
        = ((k : ℚ) * m + (((b :: bs).sum : ℕ) : ℚ)) / ((k : ℚ) + (((b :: bs).length : ℕ) : ℚ)) := by
      have hnum : ((k : ℚ) + 1) * m' = (k : ℚ) * m + b := by
        rw [hmpdef]; field_simp
      have hs : (((b :: bs).sum : ℕ) : ℚ) = (b : ℚ) + ((bs.sum : ℕ) : ℚ) := by
        rw [List.sum_cons, Nat.cast_add]
      have hl : (((b :: bs).length : ℕ) : ℚ) = ((bs.length : ℕ) : ℚ) + 1 := by
        rw [List.length_cons, Nat.cast_add, Nat.cast_one]
      have hk1c : ((k + 1 : ℕ) : ℚ) = (k : ℚ) + 1 := by push_cast; ring
      rw [hs, hl, hk1c, hnum]
      ring
    have hlen : k + 1 + bs.length = k + (b :: bs).length := by simp [List.length_cons]; omega
    constructor
    · rw [hstep]; exact hrec.1
    · rw [hstep]
      have h2 := hrec.2
      rw [hmean, hlen] at h2
      exact h2

/-- `truncMeanChan` is the floor of the exact mean: it is at most the mean
and the mean is less than it plus one. -/
theorem truncMeanChan_spec (xs : List ℕ) (h : xs ≠ []) :
    (truncMeanChan xs : ℚ) ≤ ((xs.sum : ℕ) : ℚ) / (xs.length : ℚ) ∧
      ((xs.sum : ℕ) : ℚ) / (xs.length : ℚ) < (truncMeanChan xs : ℚ) + 1 := by
  have hlen : 0 < xs.length := List.length_pos.mpr h
  have hq0 : 0 ≤ ((xs.sum : ℕ) : ℚ) / (xs.length : ℚ) :=
    div_nonneg (by positivity) (by positivity)
  have hfl0 : 0 ≤ ⌊((xs.sum : ℕ) : ℚ) / (xs.length : ℚ)⌋ := Int.floor_nonneg.mpr hq0
  have h1 : ((truncMeanChan xs : ℕ) : ℤ) = ⌊((xs.sum : ℕ) : ℚ) / (xs.length : ℚ)⌋ := by
    unfold truncMeanChan
    exact Int.toNat_of_nonneg hfl0
  have hcast : ((truncMeanChan xs : ℕ) : ℚ)
      = ((⌊((xs.sum : ℕ) : ℚ) / (xs.length : ℚ)⌋ : ℤ) : ℚ) := by
    exact_mod_cast h1
  rw [hcast]
  exact ⟨Int.floor_le _, Int.lt_floor_add_one _⟩

/-- Key numeric bound shared by the incremental-vs-batch comparisons: on a
batch `x :: xs` of 8-bit values the truncating incremental fold of
`_blend_internal_average` differs from the truncate-the-mean result of
`blend.py` by at most `(N + 2) / 2` where `N = 1 + xs.length` is the batch
size. -/
theorem incChan_close_truncMean (x : ℕ) (xs : List ℕ)
    (hx : x ≤ 255) (hxs : ∀ v ∈ xs, v ≤ 255) :
    |(incChan x xs : ℚ) - (truncMeanChan (x :: xs) : ℚ)| ≤ ((xs.length : ℚ) + 3) / 2 := by
  have h := incChanGo_err xs x 1 (x : ℚ) le_rfl hx hxs (by positivity)
    (by exact_mod_cast hx) (by simp [Ebound])
  have hinc : incChanGo x (1 + 1) xs = incChan x xs := rfl
  rw [hinc] at h
  obtain ⟨-, hbound⟩ := h
  set M : ℚ := ((1 : ℚ) * (x : ℚ) + ((xs.sum : ℕ) : ℚ)) / ((1 : ℚ) + (xs.length : ℚ)) with hM
  obtain ⟨htm1, htm2⟩ := truncMeanChan_spec (x :: xs) (by simp)
  have hMq : (((x :: xs).sum : ℕ) : ℚ) / (((x :: xs).length : ℕ) : ℚ) = M := by
    rw [hM, List.sum_cons, List.length_cons, Nat.cast_add, Nat.cast_add, Nat.cast_one]
    ring_nf
  rw [hMq] at htm1 htm2
  have h2 : |M - (truncMeanChan (x :: xs) : ℚ)| < 1 := by
    rw [abs_lt]; constructor <;> linarith
  have h3 : |(incChan x xs : ℚ) - (truncMeanChan (x :: xs) : ℚ)|
      < Ebound (1 + xs.length) + 1 :=
    lt_of_le_of_lt (abs_sub_le _ M _) (by linarith)
  -- integrality: the distance of two naturals below `(N+3)/2 - 1/N` is at
  -- most `(N+2)/2`
  set i0 : ℕ := incChan x xs
  set t0 : ℕ := truncMeanChan (x :: xs)
  set N : ℕ := 1 + xs.length with hN
  have hN1 : 1 ≤ N := by omega
  have hNQ : (1 : ℚ) ≤ (N : ℚ) := by exact_mod_cast hN1
  have hNpos : (0 : ℚ) < (N : ℚ) := by linarith
  have hEb : Ebound N + 1 = ((N : ℚ) + 3) / 2 - 1 / (N : ℚ) := by
    unfold Ebound; ring
  obtain ⟨D, hD⟩ : ∃ D : ℕ, |(i0 : ℚ) - (t0 : ℚ)| = (D : ℚ) := by
    rcases le_total i0 t0 with hle | hle
    · refine ⟨t0 - i0, ?_⟩
      have hc : ((t0 - i0 : ℕ) : ℚ) = (t0 : ℚ) - (i0 : ℚ) := by
        push_cast [Nat.cast_sub hle]; ring
      rw [abs_sub_comm, abs_of_nonneg (sub_nonneg.mpr (by exact_mod_cast hle)), hc]
    · refine ⟨i0 - t0, ?_⟩
      have hc : ((i0 - t0 : ℕ) : ℚ) = (i0 : ℚ) - (t0 : ℚ) := by
        push_cast [Nat.cast_sub hle]; ring
      rw [abs_of_nonneg (sub_nonneg.mpr (by exact_mod_cast hle)), hc]
  rw [hD] at h3 ⊢
  rw [hEb] at h3
  have h2D : ((2 * D : ℕ) : ℚ) < ((N : ℚ) + 3) := by
    push_cast
    have hrecip : 0 < 1 / (N : ℚ) := by positivity
    linarith
  have h2D' : 2 * D < N + 3 := by exact_mod_cast h2D
  have h2D'' : 2 * D ≤ N + 2 := by omega
  have hfin : (D : ℚ) ≤ ((N : ℚ) + 2) / 2 := by
    have : ((2 * D : ℕ) : ℚ) ≤ ((N + 2 : ℕ) : ℚ) := by exact_mod_cast h2D''
    push_cast at this
    linarith
  have hNc : (N : ℚ) = 1 + (xs.length : ℚ) := by rw [hN]; push_cast; ring
  rw [hNc] at hfin
  linarith

/-!
## Image-level model

A decoded RGBA image: pixel dimensions plus a pixel function giving the
intensity of each of the four channels at each coordinate (images are
already normalized to RGBA by `convert("RGBA")`, so the channel index is
`Fin 4`). A `Resampler` abstracts a Pillow resampling filter (Lanczos,
bicubic, …): given a source image and target dimensions it produces the
resampled pixel function. Pillow's `Image.resize` returns a copy of the
image unchanged when the requested size equals the current size
(`if self.size == size and box == (0, 0) + self.size: return self.copy()`),
which `pilResize` mirrors.
-/

theorem blendFold_w (bs : List Img) : ∀ (out : Img) (i : ℕ), (blendFold out i bs).w = out.w := by
  induction bs with
  | nil => intro out i; rfl
  | cons b bs ih => intro out i; simpa [blendFold, imageBlend] using ih (imageBlend out b i) (i + 1)

theorem blendFold_h (bs : List Img) : ∀ (out : Img) (i : ℕ), (blendFold out i bs).h = out.h := by
  induction bs with
  | nil => intro out i; rfl
  | cons b bs ih => intro out i; simpa [blendFold, imageBlend] using ih (imageBlend out b i) (i + 1)

theorem blendFold_pix (bs : List Img) :
    ∀ (out : Img) (i : ℕ) (x y : ℕ) (c : Fin 4),
      (blendFold out i bs).pix x y c = incChanGo (out.pix x y c) i (bs.map (fun im => im.pix x y c)) := by
  induction bs with
  | nil => intro out i x y c; rfl
  | cons b bs ih =>
    intro out i x y c
    simpa [blendFold, incChanGo, imageBlend] using ih (imageBlend out b i) (i + 1) x y c

theorem pilResize_self (r : Resampler) (im : Img) : pilResize r im im.w im.h = im := by
  simp [pilResize]

/-!
### Integer evaluation lemmas

The rational formulas above reduce, on natural inputs, to pure natural-number
arithmetic; these lemmas let concrete instances be checked by `decide`.
-/

theorem truncMeanChan_eval (xs : List ℕ) : truncMeanChan xs = xs.sum / xs.length := by
  unfold truncMeanChan
  rw [Int.floor_toNat, Nat.floor_div_nat, Nat.floor_natCast]

theorem pilBlendChan_eval (a b i : ℕ) (hi : 1 ≤ i) :
    pilBlendChan a b i =
      if a * (i - 1) + b = 0 then 0
      else if 255 * i ≤ a * (i - 1) + b then 255
      else (a * (i - 1) + b) / i := by
  have hiQ : (0 : ℚ) < (i : ℚ) := by
    have : 0 < i := hi
    exact_mod_cast this
  have ht : (a : ℚ) + 1 / (i : ℚ) * ((b : ℚ) - (a : ℚ))
      = ((a * (i - 1) + b : ℕ) : ℚ) / (i : ℚ) := by
    push_cast [Nat.cast_sub hi]
    field_simp
    ring
  have h1 : (((a * (i - 1) + b : ℕ) : ℚ) / (i : ℚ) ≤ 0) ↔ (a * (i - 1) + b = 0) := by
    rw [div_le_iff₀ hiQ, zero_mul]
    exact_mod_cast Nat.le_zero
  have h2 : ((255 : ℚ) ≤ ((a * (i - 1) + b : ℕ) : ℚ) / (i : ℚ)) ↔
      (255 * i ≤ a * (i - 1) + b) := by
    rw [le_div_iff₀ hiQ]
    exact_mod_cast Iff.rfl
  have h3 : (⌊((a * (i - 1) + b : ℕ) : ℚ) / (i : ℚ)⌋).toNat = (a * (i - 1) + b) / i := by
    rw [Int.floor_toNat, Nat.floor_div_nat, Nat.floor_natCast]
  unfold pilBlendChan
  rw [ht]
  simp only [h1, h2, h3]

theorem incChanGo_eval (xs : List ℕ) :
    ∀ (out i : ℕ), 1 ≤ i → incChanGo out i xs = incChanGoN out i xs := by
  induction xs with
  | nil => intro out i _; rfl
  | cons b bs ih =>
    intro out i hi
    simp only [incChanGo, incChanGoN]
    rw [pilBlendChan_eval out b i hi]
    exact ih _ (i + 1) (by omega)

theorem incChan_eval (x : ℕ) (xs : List ℕ) : incChan x xs = incChanGoN x 2 xs :=
  incChanGo_eval xs x 2 (by norm_num)

theorem pilResize_of_eq (r : Resampler) (im : Img) (w h : ℕ)
    (hw : im.w = w) (hh : im.h = h) : pilResize r im w h = im := by
  simp [pilResize, hw, hh]

/-- C1: for a non-empty batch of same-size images, the incremental fold of
the fallback Blend Engine computes the equally-weighted arithmetic mean
under exact arithmetic, and with 8-bit intermediate truncation stays within
`(N + 2) / 2` intensity levels per channel of the accumulate-and-divide
result of `blend.py` (here `N = 1 + xs.length` is the batch size; the
claimed fixed bound of 2 intensity levels does not hold). -/
theorem claim_C1_incremental_fold (x : ℕ) (xs : List ℕ)
    (hx : x ≤ 255) (hxs : ∀ v ∈ xs, v ≤ 255) :
    (∀ (q : ℚ) (qs : List ℚ), exactInc q qs = (q + qs.sum) / (1 + qs.length)) ∧
      |(incChan x xs : ℚ) - (truncMeanChan (x :: xs) : ℚ)| ≤ ((xs.length : ℚ) + 3) / 2 :=
  ⟨fun q qs => exactInc_eq_mean q qs, incChan_close_truncMean x xs hx hxs⟩

/-- Witness for `claim_C1_incremental_fold` at the concrete batch
`[0, 255, 10]`. -/
theorem claim_C1_incremental_fold_witness :
    ((0 ≤ 255 ∧ ∀ v ∈ [255, 10], v ≤ 255) ∧
      (∀ (q : ℚ) (qs : List ℚ), exactInc q qs = (q + qs.sum) / (1 + qs.length)) ∧
      |(incChan 0 [255, 10] : ℚ) - (truncMeanChan [0, 255, 10] : ℚ)| ≤
        (([255, 10] : List ℕ).length + 3 : ℚ) / 2) :=
  ⟨⟨by decide, by decide⟩, claim_C1_incremental_fold 0 [255, 10] (by decide) (by decide)⟩

/-- Counterexample to C1 as stated: on the 15-image batch with channel
values `0, 1, …, 14` the truncating incremental fold yields 0 while the
accumulate-and-divide result is 7 — more than 2 intensity levels apart. -/
theorem claim_C1_counterexample :
    ¬ (|(incChan 0 [1, 2, 3, 4, 5, 6, 7, 8, 9, 10, 11, 12, 13, 14] : ℚ) -
        (truncMeanChan [0, 1, 2, 3, 4, 5, 6, 7, 8, 9, 10, 11, 12, 13, 14] : ℚ)| ≤ 2) := by
  have h1 : incChan 0 [1, 2, 3, 4, 5, 6, 7, 8, 9, 10, 11, 12, 13, 14] = 0 := by
    rw [incChan_eval]; decide
  have h2 : truncMeanChan [0, 1, 2, 3, 4, 5, 6, 7, 8, 9, 10, 11, 12, 13, 14] = 7 := by
    rw [truncMeanChan_eval]; decide
  rw [h1, h2]
  norm_num

/-- C2 (amended): the blend computes the per-pixel, per-channel arithmetic
mean in floating point and converts each channel value to 8-bit by
truncation toward zero — each output channel `v` satisfies
`v ≤ mean < v + 1` — not by rounding to the nearest integer. -/
theorem claim_C2_mean_truncated (r : Resampler) (i0 : Img) (rest : List Img) :
    ∃ out, average_images_core r (i0 :: rest) = some out ∧
      ∀ (x y : ℕ) (c : Fin 4),
        (out.pix x y c : ℚ) ≤
            (((((i0 :: rest).map (fun im => pilResize r im i0.w i0.h)).map
              (fun im => im.pix x y c)).sum : ℕ) : ℚ) /
            ((((i0 :: rest).map (fun im => pilResize r im i0.w i0.h)).map
              (fun im => im.pix x y c)).length : ℚ) ∧
          (((((i0 :: rest).map (fun im => pilResize r im i0.w i0.h)).map
              (fun im => im.pix x y c)).sum : ℕ) : ℚ) /
            ((((i0 :: rest).map (fun im => pilResize r im i0.w i0.h)).map
              (fun im => im.pix x y c)).length : ℚ) < (out.pix x y c : ℚ) + 1 := by
  refine ⟨_, rfl, ?_⟩
  intro x y c
  exact truncMeanChan_spec _ (by simp)

/-- Counterexample to C2 as stated: two one-pixel images with channel
values 0 and 3 have mean 1.5; the code produces intensity 1 (truncation)
while rounding to the nearest integer gives 2. -/
theorem claim_C2_counterexample :
    (average_images_core (fun _ _ _ => fun _ _ _ => 0)
        [⟨1, 1, fun _ _ _ => 0⟩, ⟨1, 1, fun _ _ _ => 3⟩]).map (fun im => im.pix 0 0 0)
      = some (truncMeanChan [0, 3])
    ∧ truncMeanChan [0, 3] = 1 ∧ specRoundMeanChan [0, 3] = 2
    ∧ truncMeanChan [0, 3] ≠ specRoundMeanChan [0, 3] := by
  have h1 : truncMeanChan [0, 3] = 1 := by rw [truncMeanChan_eval]; decide
  have h2 : specRoundMeanChan [0, 3] = 2 := by
    unfold specRoundMeanChan
    norm_num [round_eq]
    rfl
  exact ⟨rfl, h1, h2, by rw [h1, h2]; decide⟩

/-- C3 (amended): on a batch of same-size images (where resizing is the
identity for both code paths, so the differing resampling filters of
`blend.py` and `_blend_internal_average` play no role), the standalone
batch-mean blend and the endpoint's incremental fallback blend produce
images of the same dimensions whose channels differ by at most
`(N + 2) / 2` intensity levels, `N` the batch size (the claimed tolerance
of at most 2 levels does not hold). -/
theorem claim_C3_batch_vs_incremental (r1 r2 : Resampler) (i0 : Img) (rest : List Img)
    (hsz : ∀ im ∈ rest, im.w = i0.w ∧ im.h = i0.h)
    (hpx : ∀ im ∈ i0 :: rest, ∀ (x y : ℕ) (c : Fin 4), im.pix x y c ≤ 255) :
    ∃ a b, average_images_core r1 (i0 :: rest) = some a ∧
      blend_internal_average r2 (i0 :: rest) = some b ∧
      a.w = b.w ∧ a.h = b.h ∧
      ∀ (x y : ℕ) (c : Fin 4),
        |(a.pix x y c : ℚ) - (b.pix x y c : ℚ)| ≤ (((i0 :: rest).length : ℚ) + 2) / 2 := by
  have hres1 : ∀ im ∈ rest, pilResize r1 im i0.w i0.h = im := fun im h =>
    pilResize_of_eq r1 im _ _ (hsz im h).1 (hsz im h).2
  have hres2 : ∀ im ∈ rest, pilResize r2 im i0.w i0.h = im := fun im h =>
    pilResize_of_eq r2 im _ _ (hsz im h).1 (hsz im h).2
  have hmap1 : rest.map (fun im => pilResize r1 im i0.w i0.h) = rest := by
    calc rest.map (fun im => pilResize r1 im i0.w i0.h) = rest.map id :=
          List.map_congr_left hres1
      _ = rest := List.map_id rest
  have hmap2 : rest.map (fun im => pilResize r2 im i0.w i0.h) = rest := by
    calc rest.map (fun im => pilResize r2 im i0.w i0.h) = rest.map id :=
          List.map_congr_left hres2
      _ = rest := List.map_id rest
  have hA : average_images_core r1 (i0 :: rest)
      = some ⟨i0.w, i0.h, fun x y c =>
          truncMeanChan ((i0 :: rest).map (fun im => im.pix x y c))⟩ := by
    simp [average_images_core, List.map_cons, pilResize_self, hmap1]
  have hB : blend_internal_average r2 (i0 :: rest) = some (blendFold i0 2 rest) := by
    simp [blend_internal_average, pilResize_self, hmap2]
  refine ⟨_, _, hA, hB, ?_, ?_, ?_⟩
  · show i0.w = (blendFold i0 2 rest).w
    rw [blendFold_w]
  · show i0.h = (blendFold i0 2 rest).h
    rw [blendFold_h]
  · intro x y c
    have hxs255 : ∀ v ∈ rest.map (fun im => im.pix x y c), v ≤ 255 := by
      intro v hv
      obtain ⟨im, him, rfl⟩ := List.mem_map.mp hv
      exact hpx im (List.mem_cons_of_mem _ him) x y c
    have hx255 : i0.pix x y c ≤ 255 := hpx i0 (List.mem_cons_self _ _) x y c
    have hkey := incChan_close_truncMean (i0.pix x y c)
      (rest.map (fun im => im.pix x y c)) hx255 hxs255
    rw [abs_sub_comm] at hkey
    have hbp : (blendFold i0 2 rest).pix x y c
        = incChan (i0.pix x y c) (rest.map (fun im => im.pix x y c)) :=
      blendFold_pix rest i0 2 x y c
    have hap : (Img.mk i0.w i0.h (fun x y c =>
        truncMeanChan ((i0 :: rest).map (fun im => im.pix x y c)))).pix x y c
        = truncMeanChan (i0.pix x y c :: rest.map (fun im => im.pix x y c)) := by
      simp [List.map_cons]
    rw [hbp, hap]
    have hlen : ((rest.map (fun im => im.pix x y c)).length : ℚ) = (rest.length : ℚ) := by
      rw [List.length_map]
    rw [hlen] at hkey
    have hlc : (((i0 :: rest).length : ℕ) : ℚ) = (rest.length : ℚ) + 1 := by
      rw [List.length_cons]; push_cast; ring
    rw [hlc]
    linarith [hkey]

/-- Witness for `claim_C3_batch_vs_incremental` at a concrete same-size
two-image batch. -/
theorem claim_C3_batch_vs_incremental_witness :
    ((∀ im ∈ [(⟨1, 1, fun _ _ _ => 20⟩ : Img)],
        im.w = (⟨1, 1, fun _ _ _ => 10⟩ : Img).w ∧ im.h = (⟨1, 1, fun _ _ _ => 10⟩ : Img).h) ∧
      (∀ im ∈ [(⟨1, 1, fun _ _ _ => 10⟩ : Img), ⟨1, 1, fun _ _ _ => 20⟩],
        ∀ (x y : ℕ) (c : Fin 4), im.pix x y c ≤ 255)) ∧
    (∃ a b, average_images_core (fun _ _ _ => fun _ _ _ => 0)
          [(⟨1, 1, fun _ _ _ => 10⟩ : Img), ⟨1, 1, fun _ _ _ => 20⟩] = some a ∧
        blend_internal_average (fun _ _ _ => fun _ _ _ => 0)
          [(⟨1, 1, fun _ _ _ => 10⟩ : Img), ⟨1, 1, fun _ _ _ => 20⟩] = some b ∧
        a.w = b.w ∧ a.h = b.h ∧
        ∀ (x y : ℕ) (c : Fin 4),
          |(a.pix x y c : ℚ) - (b.pix x y c : ℚ)| ≤
            ((([(⟨1, 1, fun _ _ _ => 10⟩ : Img), ⟨1, 1, fun _ _ _ => 20⟩]).length : ℚ) + 2) / 2) := by
  have h1 : ∀ im ∈ [(⟨1, 1, fun _ _ _ => 20⟩ : Img)],
      im.w = (⟨1, 1, fun _ _ _ => 10⟩ : Img).w ∧ im.h = (⟨1, 1, fun _ _ _ => 10⟩ : Img).h := by
    intro im him
    rw [List.mem_singleton] at him
    subst him
    exact ⟨rfl, rfl⟩
  have h2 : ∀ im ∈ [(⟨1, 1, fun _ _ _ => 10⟩ : Img), ⟨1, 1, fun _ _ _ => 20⟩],
      ∀ (x y : ℕ) (c : Fin 4), im.pix x y c ≤ 255 := by
    intro im him
    simp only [List.mem_cons, List.mem_singleton, List.not_mem_nil, or_false] at him
    rcases him with rfl | rfl <;> intro x y c <;> norm_num
  exact ⟨⟨h1, h2⟩, claim_C3_batch_vs_incremental _ _ _ _ h1 h2⟩

/-- Counterexample to C3 as stated: on fourteen same-size one-pixel images
with channel values 0, 1, …, 13 (same images, same order for both code
paths) the batch mean of `blend.py` gives channel value 6 while the
endpoint's incremental fallback gives 0 — far outside the documented
tolerance of at most 2 intensity levels. -/
theorem claim_C3_counterexample :
    (average_images_core (fun _ _ _ => fun _ _ _ => 0)
        [(⟨1, 1, fun _ _ _ => 0⟩ : Img), ⟨1, 1, fun _ _ _ => 1⟩,
         ⟨1, 1, fun _ _ _ => 2⟩,
         ⟨1, 1, fun _ _ _ => 3⟩,
         ⟨1, 1, fun _ _ _ => 4⟩,
         ⟨1, 1, fun _ _ _ => 5⟩,
         ⟨1, 1, fun _ _ _ => 6⟩,
         ⟨1, 1, fun _ _ _ => 7⟩,
         ⟨1, 1, fun _ _ _ => 8⟩,
         ⟨1, 1, fun _ _ _ => 9⟩,
         ⟨1, 1, fun _ _ _ => 10⟩,
         ⟨1, 1, fun _ _ _ => 11⟩,
         ⟨1, 1, fun _ _ _ => 12⟩,
         ⟨1, 1, fun _ _ _ => 13⟩]).map (fun im => im.pix 0 0 0)
      = some (truncMeanChan [0, 1, 2, 3, 4, 5, 6, 7, 8, 9, 10, 11, 12, 13]) ∧
    (blend_internal_average (fun _ _ _ => fun _ _ _ => 0)
        [(⟨1, 1, fun _ _ _ => 0⟩ : Img), ⟨1, 1, fun _ _ _ => 1⟩,
         ⟨1, 1, fun _ _ _ => 2⟩,
         ⟨1, 1, fun _ _ _ => 3⟩,
         ⟨1, 1, fun _ _ _ => 4⟩,
         ⟨1, 1, fun _ _ _ => 5⟩,
         ⟨1, 1, fun _ _ _ => 6⟩,
         ⟨1, 1, fun _ _ _ => 7⟩,
         ⟨1, 1, fun _ _ _ => 8⟩,
         ⟨1, 1, fun _ _ _ => 9⟩,
         ⟨1, 1, fun _ _ _ => 10⟩,
         ⟨1, 1, fun _ _ _ => 11⟩,
         ⟨1, 1, fun _ _ _ => 12⟩,
         ⟨1, 1, fun _ _ _ => 13⟩]).map (fun im => im.pix 0 0 0)
      = some (incChan 0 [1, 2, 3, 4, 5, 6, 7, 8, 9, 10, 11, 12, 13]) ∧
    truncMeanChan [0, 1, 2, 3, 4, 5, 6, 7, 8, 9, 10, 11, 12, 13] = 6 ∧
    incChan 0 [1, 2, 3, 4, 5, 6, 7, 8, 9, 10, 11, 12, 13] = 0 ∧
    ¬ (|((truncMeanChan [0, 1, 2, 3, 4, 5, 6, 7, 8, 9, 10, 11, 12, 13] : ℕ) : ℚ) -
        ((incChan 0 [1, 2, 3, 4, 5, 6, 7, 8, 9, 10, 11, 12, 13] : ℕ) : ℚ)| ≤ 2) := by
  have h1 : truncMeanChan [0, 1, 2, 3, 4, 5, 6, 7, 8, 9, 10, 11, 12, 13] = 6 := by
    rw [truncMeanChan_eval]; decide
  have h2 : incChan 0 [1, 2, 3, 4, 5, 6, 7, 8, 9, 10, 11, 12, 13] = 0 := by
    rw [incChan_eval]; decide
  refine ⟨rfl, rfl, h1, h2, ?_⟩
  rw [h1, h2]
  norm_num

/-- C7: for every non-empty batch (in particular batches of images with
differing pixel dimensions) the fallback Blend Engine returns an image with
exactly the first image's width and height. -/
theorem claim_C7_resize_to_first (r : Resampler) (i0 : Img) (rest : List Img) :
    ∃ out, blend_internal_average r (i0 :: rest) = some out ∧
      out.w = i0.w ∧ out.h = i0.h := by
  refine ⟨_, rfl, ?_, ?_⟩
  · rw [blendFold_w, pilResize_self]
  · rw [blendFold_h, pilResize_self]


/-!
## String utilities of `api/server.py`

Models of the Python string/path helpers used by the server: `str.lower`,
`os.path.basename`, `os.path.splitext` (from CPython's
`genericpath._splitext`, POSIX separator), and `pathlib.PurePath.suffix`.
Character classes (`str.isalnum`, `str.lower`) are modelled on their ASCII
behaviour, which covers every string the claims quantify over. -/

/-- C8 (amended): for every input string the Filename Sanitizer returns
`stem ++ "_" ++ token ++ ext` where the stem is non-empty, at most 40
characters, drawn from alphanumerics, hyphens and underscores, and the
extension is the *lowercased* input extension when it is case-insensitively
one of `{.png, .jpg, .jpeg, .webp}` and `".png"` otherwise (the
un-lowercased reading of the claim does not hold). -/
theorem claim_C8_sanitize (name token : String) :
    ∃ stem ext : String,
      sanitize_filename name token = stem ++ "_" ++ token ++ ext ∧
      stem ≠ "" ∧ stem.length ≤ 40 ∧
      (∀ c ∈ stem.data, c.isAlphanum ∨ c = '-' ∨ c = '_') ∧
      ext = (if ACCEPTED_EXTS.contains (pyLower (pySplitext (pyBasename name)).2)
             then pyLower (pySplitext (pyBasename name)).2 else ".png") := by
  refine ⟨if (⟨sanitizeStem (pySplitext (pyBasename name)).1.data⟩ : String) = ""
      then "img" else ⟨sanitizeStem (pySplitext (pyBasename name)).1.data⟩, _,
      rfl, ?_, ?_, ?_, rfl⟩
  · split_ifs with h
    · decide
    · exact h
  · split_ifs with h
    · decide
    · show (sanitizeStem (pySplitext (pyBasename name)).1.data).length ≤ 40
      unfold sanitizeStem
      rw [List.length_take]
      exact min_le_left _ _
  · by_cases h : (⟨sanitizeStem (pySplitext (pyBasename name)).1.data⟩ : String) = ""
    · rw [if_pos h]
      intro c hc
      fin_cases hc <;> simp
    · rw [if_neg h]
      intro c hc
      have hc' : c ∈ (pySplitext (pyBasename name)).1.data.map
          (fun ch => if ch.isAlphanum ∨ ch = '-' ∨ ch = '_' then ch else '_') :=
        List.mem_of_mem_take hc
      obtain ⟨ch, -, rfl⟩ := List.mem_map.mp hc'
      split_ifs with hch
      · exact hch
      · right; right; rfl

/-- Counterexample to C8 as stated: on input `"A.PNG"` (whose extension is
case-insensitively accepted) the sanitizer returns `"A_0123abcd.png"` — the
extension is lowercased, so the result does not keep the input's extension
`".PNG"` for any choice of stem. -/
theorem claim_C8_counterexample :
    sanitize_filename "A.PNG" "0123abcd" = "A_0123abcd.png" ∧
    ∀ stem : String, ¬ (sanitize_filename "A.PNG" "0123abcd"
        = stem ++ "_" ++ "0123abcd" ++ ".PNG") := by
  have heq : sanitize_filename "A.PNG" "0123abcd" = "A_0123abcd.png" := by decide
  refine ⟨heq, ?_⟩
  intro stem h
  rw [heq] at h
  have hlast : ((stem ++ "_" ++ "0123abcd" ++ ".PNG").data).getLast? = some 'G' := by
    rw [String.data_append]
    rw [List.getLast?_append_of_ne_nil _ (by decide)]
    decide
  rw [← congrArg String.data h] at hlast
  exact absurd hlast (by decide)

/-!
## The Bounded Upload Writer (`_save_and_read`)

The upload stream is the list of chunks successively returned by
`await upload.read(1024 * 1024)`; a chunk is a list of bytes. The loop
stops at the first empty chunk (`if not chunk: break` — an `UploadFile`
stream returns the empty chunk exactly at end of stream, so on a real
stream every listed chunk is non-empty until the end). The function tracks
cumulative bytes, raises HTTP 413 *before* writing the chunk that crosses
`MAX_FILE_BYTES`, writes each accepted chunk immediately, and finally
returns `dest.read_bytes()` — the bytes persisted on disk. The model
returns, on success, the pair (persisted file content, returned buffer)
and, on failure, the HTTP error together with the partial file content left
on disk at the moment of the raise. -/

theorem saveAndReadGo_ok (cs : List (List ℕ)) :
    ∀ (filename : String) (total : ℕ) (written : List ℕ),
      (∀ c ∈ cs, c ≠ []) →
      total + (cs.map List.length).sum ≤ MAX_FILE_BYTES →
      saveAndReadGo filename total written cs = .ok (written ++ cs.flatten, written ++ cs.flatten) := by
  induction cs with
  | nil => intro filename total written _ _; simp [saveAndReadGo]
  | cons c cs ih =>
    intro filename total written hne hle
    have hc : c ≠ [] := hne c (by simp)
    have hlec : total + c.length + ((cs.map List.length).sum) ≤ MAX_FILE_BYTES := by
      simp only [List.map_cons, List.sum_cons] at hle
      omega
    simp only [saveAndReadGo, if_neg hc]
    rw [if_neg (by omega)]
    rw [ih filename (total + c.length) (written ++ c) (fun d hd => hne d (by simp [hd])) hlec]
    simp [List.flatten]

theorem saveAndReadGo_overflow (cs : List (List ℕ)) :
    ∀ (filename : String) (total : ℕ) (written : List ℕ),
      (∀ c ∈ cs, c ≠ []) →
      total ≤ MAX_FILE_BYTES →
      MAX_FILE_BYTES < total + (cs.map List.length).sum →
      ∃ w, saveAndReadGo filename total written cs
        = .error ((413, payloadTooLargeDetail filename), w) := by
  induction cs with
  | nil =>
    intro filename total written _ htot hlt
    simp only [List.map_nil, List.sum_nil, Nat.add_zero] at hlt
    omega
  | cons c cs ih =>
    intro filename total written hne htot hlt
    have hc : c ≠ [] := hne c (by simp)
    simp only [saveAndReadGo, if_neg hc]
    by_cases hover : MAX_FILE_BYTES < total + c.length
    · rw [if_pos hover]
      exact ⟨written, rfl⟩
    · rw [if_neg hover]
      apply ih filename (total + c.length) (written ++ c) (fun d hd => hne d (by simp [hd]))
        (by omega)
      simp only [List.map_cons, List.sum_cons] at hlt
      omega

theorem saveAndReadGo_written_le (cs : List (List ℕ)) :
    ∀ (filename : String) (total : ℕ) (written : List ℕ),
      written.length = total → total ≤ MAX_FILE_BYTES →
      (writtenBytes (saveAndReadGo filename total written cs)).length ≤ MAX_FILE_BYTES := by
  induction cs with
  | nil =>
    intro filename total written hw htot
    simpa [saveAndReadGo, writtenBytes, hw] using htot
  | cons c cs ih =>
    intro filename total written hw htot
    by_cases hc : c = []
    · simpa [saveAndReadGo, hc, writtenBytes, hw] using htot
    · simp only [saveAndReadGo, if_neg hc]
      by_cases hover : MAX_FILE_BYTES < total + c.length
      · simpa [if_pos hover, writtenBytes, hw] using htot
      · rw [if_neg hover]
        exact ih filename (total + c.length) (written ++ c)
          (by rw [List.length_append, hw]) (by omega)

theorem saveAndReadGo_error_append (cs : List (List ℕ)) :
    ∀ (filename : String) (total : ℕ) (written : List ℕ)
      (rest : List (List ℕ)) (e : (ℕ × String) × List ℕ),
      saveAndReadGo filename total written cs = .error e →
      saveAndReadGo filename total written (cs ++ rest) = .error e := by
  induction cs with
  | nil =>
    intro filename total written rest e h
    simp [saveAndReadGo] at h
  | cons c cs ih =>
    intro filename total written rest e h
    simp only [saveAndReadGo, List.cons_append] at h ⊢
    by_cases hc : c = []
    · rw [if_pos hc] at h
      simp at h
    · rw [if_neg hc] at h ⊢
      by_cases hover : MAX_FILE_BYTES < total + c.length
      · rw [if_pos hover] at h ⊢
        exact h
      · rw [if_neg hover] at h ⊢
        exact ih _ _ _ rest e h

/-- C6: for an upload stream (non-empty chunks up to end of stream), the
Bounded Upload Writer fails with a 413 error naming the upload's declared
filename exactly when the cumulative byte count exceeds 4 MiB; on success
the persisted file is the full stream content and the returned buffer
equals the persisted file; after an overflow the rest of the stream is
never read (extending the stream past the failing prefix cannot change the
outcome). -/
theorem claim_C6_save_and_read (filename : String) (chunks : List (List ℕ))
    (hne : ∀ c ∈ chunks, c ≠ []) :
    ((∃ w, save_and_read filename chunks
        = .error ((413, payloadTooLargeDetail filename), w)) ↔
      MAX_FILE_BYTES < (chunks.map List.length).sum) ∧
    (∀ file buf, save_and_read filename chunks = .ok (file, buf) →
      file = chunks.flatten ∧ buf = file) ∧
    (∀ (pre rest : List (List ℕ)) (e : (ℕ × String) × List ℕ),
      save_and_read filename pre = .error e →
      save_and_read filename (pre ++ rest) = .error e) := by
  refine ⟨⟨?_, ?_⟩, ?_, ?_⟩
  · rintro ⟨w, hw⟩
    by_contra hgt
    push_neg at hgt
    rw [save_and_read, saveAndReadGo_ok chunks filename 0 [] hne (by simpa using hgt)] at hw
    simp at hw
  · intro hlt
    exact saveAndReadGo_overflow chunks filename 0 [] hne (Nat.zero_le _) (by simpa using hlt)
  · intro file buf h
    by_cases hs : (chunks.map List.length).sum ≤ MAX_FILE_BYTES
    · rw [save_and_read, saveAndReadGo_ok chunks filename 0 [] hne (by simpa using hs)] at h
      simp only [List.nil_append, Except.ok.injEq, Prod.mk.injEq] at h
      exact ⟨h.1.symm, h.2.symm.trans h.1⟩
    · obtain ⟨w, hw⟩ := saveAndReadGo_overflow chunks filename 0 [] hne (Nat.zero_le _)
        (by simpa using Nat.lt_of_not_le hs)
      rw [save_and_read, hw] at h
      simp at h
  · intro pre rest e h
    exact saveAndReadGo_error_append pre filename 0 [] rest e h

/-- Witness for `claim_C6_save_and_read` at a concrete 3-byte stream. -/
theorem claim_C6_save_and_read_witness :
    (∀ c ∈ [[1, 2, 3]], c ≠ ([] : List ℕ)) ∧
    (((∃ w, save_and_read "photo.png" [[1, 2, 3]]
        = .error ((413, payloadTooLargeDetail "photo.png"), w)) ↔
      MAX_FILE_BYTES < (([[1, 2, 3]] : List (List ℕ)).map List.length).sum) ∧
    (∀ file buf, save_and_read "photo.png" [[1, 2, 3]] = .ok (file, buf) →
      file = ([[1, 2, 3]] : List (List ℕ)).flatten ∧ buf = file) ∧
    (∀ (pre rest : List (List ℕ)) (e : (ℕ × String) × List ℕ),
      save_and_read "photo.png" pre = .error e →
      save_and_read "photo.png" (pre ++ rest) = .error e)) :=
  ⟨by decide, claim_C6_save_and_read "photo.png" [[1, 2, 3]] (by decide)⟩

/-- C9: throughout every execution of `_save_and_read` — success or abort —
the bytes written to the destination never exceed 4 MiB (the ceiling check
runs before the crossing chunk is written), and a stream totalling at most
exactly 4 MiB is accepted without error: the limit is strict. -/
theorem claim_C9_written_bound (filename : String) (chunks : List (List ℕ)) :
    (writtenBytes (save_and_read filename chunks)).length ≤ MAX_FILE_BYTES ∧
    ((∀ c ∈ chunks, c ≠ []) → (chunks.map List.length).sum ≤ MAX_FILE_BYTES →
      ∃ out, save_and_read filename chunks = .ok out) := by
  constructor
  · exact saveAndReadGo_written_le chunks filename 0 [] rfl (Nat.zero_le _)
  · intro hne hsum
    exact ⟨_, saveAndReadGo_ok chunks filename 0 [] hne (by simpa using hsum)⟩

/-- Witness for `claim_C9_written_bound` at a stream of exactly
`MAX_FILE_BYTES` bytes: it is accepted without error. -/
theorem claim_C9_written_bound_witness :
    ((∀ c ∈ [List.replicate MAX_FILE_BYTES 0], c ≠ []) ∧
      (([List.replicate MAX_FILE_BYTES 0].map List.length).sum ≤ MAX_FILE_BYTES)) ∧
    (writtenBytes (save_and_read "big.png" [List.replicate MAX_FILE_BYTES 0])).length
        ≤ MAX_FILE_BYTES ∧
    ∃ out, save_and_read "big.png" [List.replicate MAX_FILE_BYTES 0] = .ok out := by
  have h1 : ∀ c ∈ [List.replicate MAX_FILE_BYTES 0], c ≠ ([] : List ℕ) := by
    intro c hc
    rw [List.mem_singleton] at hc
    subst hc
    have : (List.replicate MAX_FILE_BYTES (0 : ℕ)).length = MAX_FILE_BYTES :=
      List.length_replicate _ _
    intro hnil
    rw [hnil] at this
    simp [MAX_FILE_BYTES] at this
  have h2 : (([List.replicate MAX_FILE_BYTES 0].map List.length)).sum ≤ MAX_FILE_BYTES := by
    simp
  have h := claim_C9_written_bound "big.png" [List.replicate MAX_FILE_BYTES 0]
  exact ⟨⟨h1, h2⟩, h.1, h.2 h1 h2⟩

/-!
## The Image Normalizer (`_ensure_pillow_image`) and Plugin Resolver
(`_try_blend_via_user_script`)

`_ensure_pillow_image` inspects the shape of an untrusted value: a decoded
image is returned as-is; `bytes`/`bytearray` and `io.BytesIO` contents are
decoded (`Image.open`, which may raise — modelled by the `openBytes`
parameter); a string naming an *existing* file is opened (`os.path.exists`
and `Image.open` are the `fileExists` and `openPath` parameters); anything
else raises `TypeError("Could not interpret blend result as an image.")`.

The resolver imports the optional `blend` module (catching only
`ModuleNotFoundError`!), then tries `blend_images_from_files` on the raw
byte buffers, then `blend_images` on the stored paths, then a `blend.py`
CLI subprocess; each stage's failures are swallowed by
`except Exception: pass`, falling through to the next stage; the CLI stage
returns `None` on any failure. -/

/-- C10: for every string that does not name an existing file, the Image
Normalizer fails with the `TypeError` of the final fall-through case
("Could not interpret blend result as an image."), never with a
file-not-found or decode error: the file-path branch only applies to
existing files. -/
theorem claim_C10_ensure_pillow_nonexistent (fileExists : String → Bool)
    (openBytes : List ℕ → Except PyErr Img) (openPath : String → Except PyErr Img)
    (s : String) (h : fileExists s = false) :
    ensure_pillow_image fileExists openBytes openPath (.str s)
      = .error (.typeError "Could not interpret blend result as an image.") := by
  simp [ensure_pillow_image, h]

/-- Witness for `claim_C10_ensure_pillow_nonexistent` on a concrete
normalizer state where no file exists. -/
theorem claim_C10_ensure_pillow_nonexistent_witness :
    ((fun _ : String => false) "/tmp/missing.png" = false) ∧
    ensure_pillow_image (fun _ => false)
        (fun _ => .error (.otherError "unreachable"))
        (fun _ => .error (.otherError "unreachable")) (.str "/tmp/missing.png")
      = .error (.typeError "Could not interpret blend result as an image.") :=
  ⟨rfl, claim_C10_ensure_pillow_nonexistent (fun _ => false) _ _ "/tmp/missing.png" rfl⟩

/-- C4 (amended): whenever importing the plugin module either succeeds or
fails with `ModuleNotFoundError` (module absent), the Plugin Resolver never
raises: it tries the in-memory entry point, the file-path entry point, then
the CLI, swallowing every stage failure, and returns a normalized image or
`None`. If the import itself raises any other error, that error propagates
to the caller. -/
theorem claim_C4_resolver_total (imp : ImportOutcome) (fileExists : String → Bool)
    (openBytes : List ℕ → Except PyErr Img) (openPath : String → Except PyErr Img)
    (cli : CliOutcome) (fileBytes : List (List ℕ)) (filePaths : List String)
    (h : ∀ e, imp ≠ .importFail e) :
    ∃ r : Option Img,
      try_blend_via_user_script imp fileExists openBytes openPath cli fileBytes filePaths
        = .ok r := by
  cases imp with
  | importFail e => exact absurd rfl (h e)
  | absent => exact ⟨cliStage cli, rfl⟩
  | ok m =>
    unfold try_blend_via_user_script
    cases hs1 : resolverStage1 fileExists openBytes openPath m fileBytes with
    | some im => exact ⟨some im, by simp [hs1]⟩
    | none =>
      cases hs2 : resolverStage2 fileExists openBytes openPath m filePaths with
      | some im => exact ⟨some im, by simp [hs1, hs2]⟩
      | none => exact ⟨cliStage cli, by simp [hs1, hs2]⟩

/-- Witness for `claim_C4_resolver_total` at a concrete resolver state
(module present, both entry points raising, CLI failing). -/
theorem claim_C4_resolver_total_witness :
    (∀ e, (ImportOutcome.ok ⟨some (fun _ => .error (.valueError "bad bytes")),
        some (fun _ => .error (.valueError "bad paths"))⟩) ≠ .importFail e) ∧
    ∃ r : Option Img,
      try_blend_via_user_script
        (ImportOutcome.ok ⟨some (fun _ => .error (.valueError "bad bytes")),
          some (fun _ => .error (.valueError "bad paths"))⟩)
        (fun _ => false) (fun _ => .error (.otherError "x"))
        (fun _ => .error (.otherError "x"))
        ⟨.ok (1, "boom"), false, .error (.otherError "x")⟩ [] []
        = .ok r := by
  have h : ∀ e, (ImportOutcome.ok ⟨some (fun _ => .error (.valueError "bad bytes")),
      some (fun _ => .error (.valueError "bad paths"))⟩) ≠ ImportOutcome.importFail e := by
    intro e hcontra
    cases hcontra
  exact ⟨h, claim_C4_resolver_total _ _ _ _ _ _ _ h⟩

/-- Counterexample to C4 as stated: a plugin module that is present but
whose import raises anything other than `ModuleNotFoundError` (for example
a module whose top-level code fails) propagates that exception to the
resolver's caller — the `try/except ModuleNotFoundError` around
`importlib.import_module` does not swallow it. -/
theorem claim_C4_counterexample :
    try_blend_via_user_script (ImportOutcome.importFail (.importError "broken plugin"))
        (fun _ => false) (fun _ => .error (.otherError "x"))
        (fun _ => .error (.otherError "x"))
        ⟨.ok (0, ""), true, .error (.otherError "x")⟩ [] []
      = .error (.importError "broken plugin") ∧
    ∀ r : Option Img,
      try_blend_via_user_script (ImportOutcome.importFail (.importError "broken plugin"))
          (fun _ => false) (fun _ => .error (.otherError "x"))
          (fun _ => .error (.otherError "x"))
          ⟨.ok (0, ""), true, .error (.otherError "x")⟩ [] []
        ≠ .ok r := by
  refine ⟨rfl, ?_⟩
  intro r hcontra
  simp [try_blend_via_user_script] at hcontra

/-!
## The Request Orchestrator (`blend_endpoint`)

An upload as FastAPI hands it to the endpoint: a declared filename and
media type (both optional) and the byte stream. Validation (batch size,
then per-file type check) happens before any stream is read: the model's
`validateBatch` consumes only the metadata, and the endpoint persists
nothing when it fails. After validation each upload is written by the
Bounded Upload Writer (first 413 aborts the request); then the Plugin
Resolver outcome (the `resolver` parameter, cf.
`try_blend_via_user_script`) is consulted; `None` falls back to
`_blend_internal_average` on the stored files (`Image.open` is the
`decode` parameter); any exception there is caught by the generic handler
and reported as a 500 response. -/

theorem saveAndReadGo_error_shape (cs : List (List ℕ)) :
    ∀ (filename : String) (total : ℕ) (written : List ℕ)
      (e : ℕ × String) (w : List ℕ),
      saveAndReadGo filename total written cs = .error (e, w) →
      e = (413, payloadTooLargeDetail filename) := by
  induction cs with
  | nil =>
    intro filename total written e w h
    simp [saveAndReadGo] at h
  | cons c cs ih =>
    intro filename total written e w h
    simp only [saveAndReadGo] at h
    by_cases hc : c = []
    · rw [if_pos hc] at h
      simp at h
    · rw [if_neg hc] at h
      by_cases hover : MAX_FILE_BYTES < total + c.length
      · rw [if_pos hover] at h
        simp only [Except.error.injEq, Prod.mk.injEq] at h
        exact h.1.symm
      · rw [if_neg hover] at h
        exact ih _ _ _ e w h

theorem saveAllGo_error_code (ufs : List Upload) :
    ∀ (acc : List (List ℕ)) (e : ℕ × String) (w : List (List ℕ)),
      saveAllGo acc ufs = .error (e, w) →
      ∃ name, e = (413, payloadTooLargeDetail name) := by
  induction ufs with
  | nil =>
    intro acc e w h
    simp [saveAllGo] at h
  | cons uf rest ih =>
    intro acc e w h
    simp only [saveAllGo] at h
    cases hs : save_and_read (optFilenameStr uf.filename) uf.stream with
    | error ew =>
      obtain ⟨e', w'⟩ := ew
      rw [hs] at h
      simp only [Except.error.injEq, Prod.mk.injEq] at h
      exact ⟨optFilenameStr uf.filename,
        h.1 ▸ saveAndReadGo_error_shape uf.stream _ 0 [] e' w' hs⟩
    | ok ww =>
      rw [hs] at h
      exact ih _ e w h

theorem validateBatch_meta (files files' : List Upload)
    (h : files'.map Upload.meta = files.map Upload.meta) :
    validateBatch files' = validateBatch files := by
  have hlen : files'.length = files.length := by
    have := congrArg List.length h
    simpa using this
  have hgen : ∀ l : List Upload,
      l.any uploadTypeBad = (l.map Upload.meta).any uploadTypeBadM := by
    intro l
    induction l with
    | nil => rfl
    | cons a t iht =>
      simp only [List.any_cons, List.map_cons]
      rw [iht]
      rfl
  have hany : files'.any uploadTypeBad = files.any uploadTypeBad := by
    rw [hgen files', hgen files, h]
  unfold validateBatch
  rw [hlen, hany]

theorem blend_endpoint_code (resolver : Except PyErr (Option Img))
    (decode : List ℕ → Except PyErr Img) (r : Resampler) (files : List Upload)
    (h : validateBatch files = none) (c : ℕ) (m : String) :
    (blend_endpoint resolver decode r files).1 = .error (c, m) → c = 413 ∨ c = 500 := by
  unfold blend_endpoint
  rw [h]
  cases hsave : saveAllGo [] files with
  | error ew =>
    obtain ⟨e, w⟩ := ew
    obtain ⟨name, hname⟩ := saveAllGo_error_code files [] e w hsave
    intro hcm
    rw [hname] at hcm
    simp only [Except.error.injEq, Prod.mk.injEq] at hcm
    exact Or.inl hcm.1.symm
  | ok written =>
    cases resolver with
    | error e =>
      intro hcm
      simp only [Except.error.injEq, Prod.mk.injEq] at hcm
      exact Or.inr hcm.1.symm
    | ok o =>
      cases o with
      | some im =>
        intro hcm
        simp at hcm
      | none =>
        cases hb : blendInternalFromBytes decode r written with
        | error e =>
          intro hcm
          simp only [hb, Except.error.injEq, Prod.mk.injEq] at hcm
          exact Or.inr hcm.1.symm
        | ok im =>
          intro hcm
          simp [hb] at hcm

/-- C5: the endpoint fails with 422 iff the file count is outside
`[MIN_FILES, MAX_FILES] = [2, 15]`; otherwise it fails with 415 iff some
upload has both an unaccepted (lowercased) declared media type and an
unaccepted (lowercased) filename extension; both validations happen before
any upload bytes are read or any file persisted: on validation failure
nothing is written and the outcome is the same for any stream contents with
the same metadata. -/
theorem claim_C5_endpoint_validation (resolver : Except PyErr (Option Img))
    (decode : List ℕ → Except PyErr Img) (r : Resampler) (files : List Upload) :
    ((∃ m, (blend_endpoint resolver decode r files).1 = .error (422, m)) ↔
      ¬ (MIN_FILES ≤ files.length ∧ files.length ≤ MAX_FILES)) ∧
    ((∃ m, (blend_endpoint resolver decode r files).1 = .error (415, m)) ↔
      ((MIN_FILES ≤ files.length ∧ files.length ≤ MAX_FILES) ∧
        ∃ uf ∈ files, uploadTypeBad uf = true)) ∧
    ((validateBatch files).isSome →
      (blend_endpoint resolver decode r files).2 = [] ∧
      ∀ files' : List Upload, files'.map Upload.meta = files.map Upload.meta →
        blend_endpoint resolver decode r files' = blend_endpoint resolver decode r files) := by
  have hv422 : ¬ (MIN_FILES ≤ files.length ∧ files.length ≤ MAX_FILES) →
      validateBatch files = some (422, "Please upload between 2 and 15 images.") := by
    intro hnv
    unfold validateBatch
    rw [if_pos (by simp only [MIN_FILES, MAX_FILES] at *; omega)]
  have hv415 : (MIN_FILES ≤ files.length ∧ files.length ≤ MAX_FILES) →
      files.any uploadTypeBad = true →
      validateBatch files = some (415, "Only PNG, JPEG, or WebP images are allowed.") := by
    intro hval hb
    unfold validateBatch
    rw [if_neg (by simp only [MIN_FILES, MAX_FILES] at *; omega), if_pos hb]
  have hvnone : (MIN_FILES ≤ files.length ∧ files.length ≤ MAX_FILES) →
      files.any uploadTypeBad = false → validateBatch files = none := by
    intro hval hb
    unfold validateBatch
    rw [if_neg (by simp only [MIN_FILES, MAX_FILES] at *; omega), if_neg (by simp [hb])]
  refine ⟨⟨?_, ?_⟩, ⟨?_, ?_⟩, ?_⟩
  · rintro ⟨m, hm⟩ hvalid
    cases hb : files.any uploadTypeBad with
    | false =>
      have := blend_endpoint_code resolver decode r files (hvnone hvalid hb) 422 m hm
      omega
    | true =>
      have hv := hv415 hvalid hb
      unfold blend_endpoint at hm
      rw [hv] at hm
      simp at hm
  · intro hinvalid
    refine ⟨"Please upload between 2 and 15 images.", ?_⟩
    unfold blend_endpoint
    rw [hv422 hinvalid]
  · rintro ⟨m, hm⟩
    by_cases hvalid : MIN_FILES ≤ files.length ∧ files.length ≤ MAX_FILES
    · refine ⟨hvalid, ?_⟩
      cases hb : files.any uploadTypeBad with
      | false =>
        exfalso
        have := blend_endpoint_code resolver decode r files (hvnone hvalid hb) 415 m hm
        omega
      | true =>
        obtain ⟨x, hx, hpx⟩ := List.any_eq_true.mp hb
        exact ⟨x, hx, hpx⟩
    · exfalso
      have hv := hv422 hvalid
      unfold blend_endpoint at hm
      rw [hv] at hm
      simp at hm
  · rintro ⟨hvalid, uf, huf, hbad⟩
    refine ⟨"Only PNG, JPEG, or WebP images are allowed.", ?_⟩
    unfold blend_endpoint
    rw [hv415 hvalid (List.any_eq_true.mpr ⟨uf, huf, hbad⟩)]
  · intro hsome
    obtain ⟨e, he⟩ := Option.isSome_iff_exists.mp hsome
    refine ⟨?_, ?_⟩
    · unfold blend_endpoint
      rw [he]
    · intro files' hmeta
      unfold blend_endpoint
      rw [validateBatch_meta files files' hmeta, he]

/-- Witness for `claim_C5_endpoint_validation`: an empty batch is rejected
with 422. -/
theorem claim_C5_endpoint_validation_witness :
    ∃ m, (blend_endpoint (.ok none) (fun _ => .error (.otherError "x"))
        (fun _ _ _ => fun _ _ _ => 0) []).1 = .error (422, m) :=
  (claim_C5_endpoint_validation (.ok none) (fun _ => .error (.otherError "x"))
      (fun _ _ _ => fun _ _ _ => 0) []).1.mpr
    (by simp [MIN_FILES, MAX_FILES])
